import Mathlib

/-!
Shallow embedding of src/mc/energy_number.rs from the sad-monte-carlo
repository.

Modelling conventions:
the f64 energies, weights and probabilities of the source are modelled as
rationals with exact arithmetic; u64 counters are naturals; Rust vectors are
lists; indexed reads are List.getD and indexed writes are List.set (both
total; the in-range situations the claims speak about are captured through
explicit length hypotheses).  The f64-to-usize cast in state_to_index is
modelled by Int.toNat of the floor, which matches Rust semantics exactly:
truncation toward zero for non-negative values and saturation to zero for
negative values.  The random draw consumed by reject_move is passed in as an
explicit parameter, and the f64 exp function is the real exponential, so the
rejection decision is a proposition over the reals.  The IEEE special values
produced by the adaptive add/remove-probability control are modelled by an
explicit type FVal with NaN and signed infinities.
-/

/-- A sampling state: energy E and particle count N (struct State in
energy_number.rs). -/
structure State where
  E : ℚ
  N : ℕ
deriving DecidableEq, Repr

/-- The adaptive 2D energy/number table (struct Bins in energy_number.rs).
Energy is ℚ, Unitless is ℚ, Length is ℚ, u64 is ℕ. -/
structure Bins where
  min : ℚ
  width : ℚ
  histogram : List ℕ
  lnw : List ℚ
  translation_scale : List ℚ
  num_translation_attempts : List ℕ
  num_translation_accepted : List ℕ
  num_addremove_attempts : ℕ
  num_addremove_accepted : ℕ
  have_visited_since_maxentropy : List Bool
  round_trips : List ℕ
  max_S : ℚ
  max_S_index : ℕ
  max_N : ℕ
  num_E : ℕ
  num_states : ℕ
  t_last : ℕ
deriving DecidableEq, Repr

/-- Bins::state_to_index.  The source computes
`(((s.E - min)/width) as usize)*(max_N+1) + s.N`; the float-to-usize cast
truncates toward zero and saturates negative values to zero, which is
exactly Int.toNat of the floor for the non-negative and negative cases. -/
def Bins.state_to_index (b : Bins) (s : State) : ℕ :=
  (Int.toNat ⌊(s.E - b.min) / b.width⌋) * (b.max_N + 1) + s.N

/-- Bins::index_to_state: reconstructs the bin-center state. -/
def Bins.index_to_state (b : Bins) (i : ℕ) : State :=
  { E := b.min + (((i / (b.max_N + 1) : ℕ) : ℚ) + 1 / 2) * b.width
    N := i % (b.max_N + 1) }

/-- Bins::emax. -/
def Bins.emax (b : Bins) : ℚ :=
  b.min + b.width * (b.num_E : ℚ)

/-- Bins::nbins. -/
def Bins.nbins (b : Bins) : ℕ :=
  b.num_E * (b.max_N + 1)

/-- The grow condition at the head of Bins::prepare_for_state:
`e.N > max_N || e.E < min || e.E >= emax()`. -/
def Bins.outside (b : Bins) (e : State) : Prop :=
  b.max_N < e.N ∨ e.E < b.min ∨ b.emax ≤ e.E

instance (b : Bins) (e : State) : Decidable (Bins.outside b e) := by
  unfold Bins.outside
  infer_instance

/-- First while loop of Bins::prepare_for_state: lower min by width until it
no longer exceeds e.E, counting one extra energy row per step.  The 0 < w
conjunct mirrors the `assert!(width > 0)` at the head of prepare_for_state;
under that assertion the guard agrees with the source condition min > e. -/
def growMinLoop (w e : ℚ) (mn : ℚ) (numE : ℕ) : ℚ × ℕ :=
  if h : 0 < w ∧ e < mn then
    growMinLoop w e (mn - w) (numE + 1)
  else
    (mn, numE)
termination_by (⌈(mn - e) / w⌉).toNat
decreasing_by
  have hw : (0 : ℚ) < w := h.1
  have he : e < mn := h.2
  have h0 : (0 : ℚ) < (mn - e) / w := div_pos (by linarith) hw
  have h1 : (0 : ℤ) < ⌈(mn - e) / w⌉ := Int.ceil_pos.mpr h0
  have h3 : (mn - w - e) / w = (mn - e) / w - 1 := by
    field_simp
    ring
  have h2 : ⌈(mn - w - e) / w⌉ = ⌈(mn - e) / w⌉ - 1 := by
    rw [h3, Int.ceil_sub_one]
  rw [h2]
  omega

/-- Second while loop of Bins::prepare_for_state: bump num_E until emax
covers e.E.  The 0 < w conjunct again mirrors the width assertion. -/
def growNumELoop (w e mn : ℚ) (numE : ℕ) : ℕ :=
  if h : 0 < w ∧ mn + w * (numE : ℚ) ≤ e then
    growNumELoop w e mn (numE + 1)
  else
    numE
termination_by (⌊(e - mn) / w⌋ + 1).toNat - numE
decreasing_by
  have hw : (0 : ℚ) < w := h.1
  have hle : mn + w * (numE : ℚ) ≤ e := h.2
  have hq : ((numE : ℕ) : ℚ) ≤ (e - mn) / w := by
    rw [le_div_iff₀ hw]
    linarith
  have h1 : ((numE : ℕ) : ℤ) ≤ ⌊(e - mn) / w⌋ := Int.le_floor.mpr (by exact_mod_cast hq)
  omega

/-- The per-particle-count copy loop of Bins::prepare_for_state (the
`for n in 0..max_N+1` loop copying translation_scale and the translation
attempt/accept counters). -/
def copyPerN (old : Bins) : Bins → ℕ → Bins
  | nb, 0 => nb
  | nb, n + 1 =>
    let b := copyPerN old nb n
    { b with
      translation_scale := b.translation_scale.set n (old.translation_scale.getD n 0)
      num_translation_attempts :=
        b.num_translation_attempts.set n (old.num_translation_attempts.getD n 0)
      num_translation_accepted :=
        b.num_translation_accepted.set n (old.num_translation_accepted.getD n 0) }

/-- The remap loop of Bins::prepare_for_state (the `for i in 0..lnw.len()`
loop): each old entry is written to the index of its old bin-center state in
the new grid. -/
def remapLoop (old : Bins) (nb : Bins) : ℕ → Bins
  | 0 => nb
  | n + 1 =>
    let b := remapLoop old nb n
    let s := old.index_to_state n
    let j := b.state_to_index s
    { b with
      lnw := b.lnw.set j (old.lnw.getD n 0)
      histogram := b.histogram.set j (old.histogram.getD n 0)
      have_visited_since_maxentropy :=
        b.have_visited_since_maxentropy.set j (old.have_visited_since_maxentropy.getD n false)
      round_trips := b.round_trips.set j (old.round_trips.getD n 0) }

/-- The freshly allocated covering grid inside Bins::prepare_for_state
(`newbins` after the two while loops and the zero-filled reallocations,
before the copy loops run): max_N covers e.N, the two while loops grow the
energy range, all per-bin arrays are zero-filled at the new size, and the
per-particle-count arrays are seeded from translation_scale[0]. -/
def Bins.grownFresh (b : Bins) (e : State) : Bins :=
  let maxN2 := if b.max_N < e.N then e.N else b.max_N
  let p := growMinLoop b.width e.E b.min b.num_E
  let numE2 := growNumELoop b.width e.E p.1 p.2
  { min := p.1
    width := b.width
    histogram := List.replicate (numE2 * (maxN2 + 1)) 0
    lnw := List.replicate (numE2 * (maxN2 + 1)) 0
    translation_scale := List.replicate (maxN2 + 1) (b.translation_scale.getD 0 0)
    num_translation_attempts := List.replicate (maxN2 + 1) 0
    num_translation_accepted := List.replicate (maxN2 + 1) 0
    num_addremove_attempts := b.num_addremove_attempts
    num_addremove_accepted := b.num_addremove_accepted
    have_visited_since_maxentropy := List.replicate (numE2 * (maxN2 + 1)) false
    round_trips := List.replicate (numE2 * (maxN2 + 1)) 0
    max_S := b.max_S
    max_S_index := b.max_S_index
    max_N := maxN2
    num_E := numE2
    num_states := b.num_states
    t_last := b.t_last }

/-- The grow-and-remap body of Bins::prepare_for_state (the then branch of
the source): build the fresh covering grid, copy the per-particle-count
arrays, then remap every old per-bin entry. -/
def Bins.grown (b : Bins) (e : State) : Bins :=
  remapLoop b (copyPerN b (b.grownFresh e) (b.max_N + 1)) b.lnw.length

/-- Bins::prepare_for_state.  Returns the (possibly grown) Bins together
with the Bool the source returns (true exactly when a grow happened). -/
def Bins.prepare_for_state (b : Bins) (e : State) : Bins × Bool :=
  if Bins.outside b e then
    (b.grown e, true)
  else
    (b, false)

/-- The index an old entry is remapped to by the remap loop: the old grid
reconstructs the bin-center state, the new grid indexes it. -/
def Bins.remapIdx (old nb : Bins) (i : ℕ) : ℕ :=
  nb.state_to_index (old.index_to_state i)

/-- Well-formedness of a Bins value: all per-bin arrays have length nbins
and all per-particle-count arrays have length max_N + 1. -/
def Bins.wf (b : Bins) : Prop :=
  b.histogram.length = b.nbins ∧
  b.lnw.length = b.nbins ∧
  b.have_visited_since_maxentropy.length = b.nbins ∧
  b.round_trips.length = b.nbins ∧
  b.translation_scale.length = b.max_N + 1 ∧
  b.num_translation_attempts.length = b.max_N + 1 ∧
  b.num_translation_accepted.length = b.max_N + 1

instance (b : Bins) : Decidable (Bins.wf b) := by
  unfold Bins.wf
  infer_instance

/-- The weight-update policy (enum Method in energy_number.rs): SAMC with
its t0 parameter, or Wang-Landau with gamma, the three scalar counters and
the auxiliary Bins used only for the flatness test. -/
inductive Method where
  | Samc (t0 : ℚ)
  | WL (gamma : ℚ) (lowest_hist highest_hist total_hist : ℕ) (bins : Bins)
deriving DecidableEq

/-- EnergyNumberMC::gamma: SAMC returns t0/t once the move count t exceeds
t0 and 1 before that; Wang-Landau returns its stored gamma. -/
def gammaOf (m : Method) (moves : ℕ) : ℚ :=
  match m with
  | .Samc t0 => if t0 < (moves : ℚ) then t0 / (moves : ℚ) else 1
  | .WL g _ _ _ _ => g

/-- EnergyNumberMC::reject_move.  The single f64 drawn from the engine's
generator is the parameter u; the result pairs the updated Method (the WL
branch grows its auxiliary bins for the candidate, restarting the schedule
when gamma is not 1 or the grown histogram is empty) with the rejection
decision as a proposition over the reals (exp is the real exponential).
Movie/diagnostic calls in the source do not touch sampler state and are
omitted. -/
def reject_move (bins : Bins) (m : Method) (e1 e2 : State) (u : ℚ) : Method × Prop :=
  let i1 := bins.state_to_index e1
  let i2 := bins.state_to_index e2
  match m with
  | .Samc t0 =>
    let lnw1 := bins.lnw.getD i1 0
    let lnw2 := bins.lnw.getD i2 0
    (.Samc t0, lnw1 < lnw2 ∧ Real.exp ((lnw1 : ℝ) - (lnw2 : ℝ)) < (u : ℝ))
  | .WL g lo hi tot aux =>
    let p := aux.prepare_for_state e2
    let m2 : Method :=
      if p.2 then
        if g ≠ 1 ∨ p.1.histogram.length = 0 then .WL 1 0 0 0 p.1
        else .WL g lo hi tot p.1
      else .WL g lo hi tot p.1
    let lnw1 := bins.lnw.getD i1 0
    let lnw2 := bins.lnw.getD i2 0
    (m2, lnw1 < lnw2 ∧ Real.exp ((lnw1 : ℝ) - (lnw2 : ℝ)) < (u : ℝ))

/-- The filtered minimum inside EnergyNumberMC::update_weights: the minimum
of the auxiliary histogram counts over the indices at which the main
histogram is non-zero
(`bins.histogram.iter().enumerate().filter(|(i,_)| histogram[*i] != 0)
.map(|(_,&h)| h).min()`). -/
def minFiltered (auxH mainH : List ℕ) : Option ℕ :=
  ((auxH.enum.filter (fun p => mainH.getD p.1 0 != 0)).map Prod.snd).min?

/-- EnergyNumberMC::update_weights: adds gamma to the visited bin of the
main lnw table; in Wang-Landau mode additionally advances the auxiliary
histogram and applies the flatness test, halving gamma and resetting the
auxiliary counts when it fires. -/
def update_weights (bins : Bins) (m : Method) (moves : ℕ) (energy : State) :
    Bins × Method :=
  let i := bins.state_to_index energy
  let gamma := gammaOf m moves
  let bins2 := { bins with lnw := bins.lnw.set i (bins.lnw.getD i 0 + gamma) }
  match m with
  | .Samc t0 => (bins2, .Samc t0)
  | .WL g lo hi tot aux =>
    let num_states : ℚ := (bins.num_states : ℚ)
    let aux1 := { aux with histogram := aux.histogram.set i (aux.histogram.getD i 0 + 1) }
    let hcount := aux1.histogram.getD i 0
    let hi2 := if hi < hcount then hcount else hi
    let tot2 := tot + 1
    if hcount = lo + 1 ∧ minFiltered aux1.histogram bins.histogram = some (lo + 1) then
      let lo2 := hcount
      if 1 < aux1.histogram.length ∧ (0.8 : ℚ) * (tot2 : ℚ) / num_states ≤ (lo2 : ℚ) then
        (bins2, .WL (g * 0.5) 0 hi2 0
          { aux1 with histogram := List.replicate aux1.histogram.length 0 })
      else
        (bins2, .WL g lo2 hi2 tot2 aux1)
    else
      (bins2, .WL g lo hi2 tot2 aux1)

/-- The candidate-temperature step of the lower-bound scan in
EnergyNumberMC::temperature (the body of the `for j in 0..i` loop). -/
def tloStep (b : Bins) (energy lnwi : ℚ) (Tlo : ℚ) (j : ℕ) : ℚ :=
  let lnwj := b.lnw.getD j 0
  if 0 < lnwj then
    let Tj := (energy - (b.index_to_state j).E) / (lnwi - lnwj)
    if Tlo < Tj then Tj else Tlo
  else Tlo

/-- The candidate-temperature step of the upper-bound scan in
EnergyNumberMC::temperature (the body of the `for j in i+1..len` loop). -/
def thiStep (b : Bins) (energy lnwi : ℚ) (Thi : ℚ) (j : ℕ) : ℚ :=
  let lnwj := b.lnw.getD j 0
  if 0 < lnwj then
    let Tj := (energy - (b.index_to_state j).E) / (lnwi - lnwj)
    if Tj < Thi then Tj else Thi
  else Thi

/-- EnergyNumberMC::temperature: finite-difference temperature estimate.
Tlo starts at 0, Thi starts at the 1e300 sentinel. -/
def temperature (b : Bins) (s : State) : ℚ :=
  let i := b.state_to_index s
  let energy := s.E
  let lnwi := b.lnw.getD i 0
  let Tlo := (List.range i).foldl (tloStep b energy lnwi) 0
  let Thi := (List.range' (i + 1) (b.lnw.length - (i + 1))).foldl
    (thiStep b energy lnwi) ((10 : ℚ) ^ 300)
  if Tlo < Thi ∧ 0 < Tlo then (0.5 : ℚ) * (Thi + Tlo)
  else if 0 < Tlo then Tlo
  else Thi

/-- An f64 value as consumed by the adaptive add/remove-probability control:
a finite rational, a signed infinity, or NaN. -/
inductive FVal where
  | fin (q : ℚ)
  | pinf
  | ninf
  | nan
deriving DecidableEq, Repr

/-- IEEE subtraction on FVal (exact in the finite case). -/
def FVal.sub : FVal → FVal → FVal
  | .nan, _ => .nan
  | _, .nan => .nan
  | .fin a, .fin b => .fin (a - b)
  | .fin _, .pinf => .ninf
  | .fin _, .ninf => .pinf
  | .pinf, .fin _ => .pinf
  | .pinf, .pinf => .nan
  | .pinf, .ninf => .pinf
  | .ninf, .fin _ => .ninf
  | .ninf, .pinf => .ninf
  | .ninf, .ninf => .nan

/-- IEEE division on FVal (exact in the finite case; division by a zero of
positive sign, the only zero the counter ratios produce). -/
def FVal.div : FVal → FVal → FVal
  | .nan, _ => .nan
  | _, .nan => .nan
  | .fin a, .fin b =>
    if b ≠ 0 then .fin (a / b)
    else if a = 0 then .nan
    else if 0 < a then .pinf
    else .ninf
  | .fin _, .pinf => .fin 0
  | .fin _, .ninf => .fin 0
  | .pinf, .fin b => if 0 ≤ b then .pinf else .ninf
  | .ninf, .fin b => if 0 ≤ b then .ninf else .pinf
  | .pinf, .pinf => .nan
  | .pinf, .ninf => .nan
  | .ninf, .pinf => .nan
  | .ninf, .ninf => .nan

/-- f64::is_nan. -/
def FVal.isNaN : FVal → Bool
  | .nan => true
  | _ => false

/-- The f64 comparison `new_p > q` (false whenever new_p is NaN). -/
def FVal.gtQ : FVal → ℚ → Bool
  | .nan, _ => false
  | .pinf, _ => true
  | .ninf, _ => false
  | .fin a, q => decide (q < a)

/-- The value `new_p` computed by the MoveParams::AcceptanceRate block of
EnergyNumberMC::move_once:
`(r - translation_acceptance_rate)/(acceptance_rate -
translation_acceptance_rate)` with both rates formed by u64-to-f64 casts and
f64 division.  The u64 subtractions require the addremove counters to be
bounded by the overall counters, as they are in any reachable state. -/
def newPOf (r : ℚ) (moves accepted_moves adr_att adr_acc : ℕ) : FVal :=
  let acceptance_rate := FVal.div (.fin (adr_acc : ℚ)) (.fin (adr_att : ℚ))
  let translation_acceptance_rate :=
    FVal.div (.fin ((accepted_moves - adr_acc : ℕ) : ℚ)) (.fin ((moves - adr_att : ℕ) : ℚ))
  FVal.div (FVal.sub (.fin r) translation_acceptance_rate)
    (FVal.sub acceptance_rate translation_acceptance_rate)

/-- The adaptive add/remove-probability recomputation in
EnergyNumberMC::move_once (MoveParams::AcceptanceRate mode): store new_p
clamped to 0.999 unless it is NaN, in which case the probability is left
unchanged.  The probability itself is an f64 and is therefore an FVal. -/
def recomputeAddremove (r : ℚ) (moves accepted_moves adr_att adr_acc : ℕ)
    (p : FVal) : FVal :=
  let new_p := newPOf r moves accepted_moves adr_att adr_acc
  if ¬ new_p.isNaN then
    if new_p.gtQ (999 / 1000) then .fin (999 / 1000) else new_p
  else p

/-- The round-trip bookkeeping block at the end of
EnergyNumberMC::move_once (the three-way if on lines 564-579): i is the
index of the bin actually visited this step, i1 the index of the move's
origin state e1. -/
def roundTripStep (b : Bins) (i i1 : ℕ) : Bins :=
  if b.max_S < b.lnw.getD i 0 then
    { b with
      max_S := b.lnw.getD i 0
      max_S_index := i
      have_visited_since_maxentropy :=
        List.replicate b.have_visited_since_maxentropy.length true }
  else if i = b.max_S_index then
    if i1 ≠ i then
      { b with
        have_visited_since_maxentropy :=
          List.replicate b.have_visited_since_maxentropy.length false }
    else b
  else if ¬ (b.have_visited_since_maxentropy.getD i false) then
    { b with
      have_visited_since_maxentropy := b.have_visited_since_maxentropy.set i true
      round_trips := b.round_trips.set i (b.round_trips.getD i 0 + 1) }
  else b

/-- A concrete one-bin grid used by witnesses: the grid covers only the
energy interval [0, 1) at particle count 0. -/
def exB1 : Bins :=
  { min := 0
    width := 1
    histogram := [5]
    lnw := [7]
    translation_scale := [1]
    num_translation_attempts := [2]
    num_translation_accepted := [3]
    num_addremove_attempts := 0
    num_addremove_accepted := 0
    have_visited_since_maxentropy := [true]
    round_trips := [4]
    max_S := 7
    max_S_index := 0
    max_N := 0
    num_E := 1
    num_states := 1
    t_last := 1 }

/-- A concrete two-bin grid used by witnesses: energies [0,1) and [1,2) at
particle count 0, both bins visited, flat zero weights. -/
def exB2 : Bins :=
  { min := 0
    width := 1
    histogram := [1, 1]
    lnw := [0, 0]
    translation_scale := [1]
    num_translation_attempts := [0]
    num_translation_accepted := [0]
    num_addremove_attempts := 0
    num_addremove_accepted := 0
    have_visited_since_maxentropy := [true, true]
    round_trips := [0, 0]
    max_S := 0
    max_S_index := 0
    max_N := 0
    num_E := 2
    num_states := 2
    t_last := 1 }

/-- The two-bin grid of exB2 with an all-zero histogram, used as a concrete
Wang-Landau auxiliary table. -/
def exAux2 : Bins :=
  { exB2 with histogram := [0, 0] }

/-- The two-bin grid of exB2 with weights 1 and 2 (lnw increasing with
energy), used for the temperature claims. -/
def exB9 : Bins :=
  { exB2 with lnw := [1, 2] }

lemma getD_set_self' {α : Type} (l : List α) (j : ℕ) (v d : α) (h : j < l.length) :
    (l.set j v).getD j d = v := by
  simp [List.getElem?_set_self h]

lemma getD_set_ne' {α : Type} (l : List α) (i j : ℕ) (v d : α) (h : i ≠ j) :
    (l.set i v).getD j d = l.getD j d := by
  simp [List.getElem?_set_ne h]

lemma getD_replicate' {α : Type} (n : ℕ) (a d : α) (j : ℕ) (h : j < n) :
    (List.replicate n a).getD j d = a := by
  simp [List.getElem?_replicate, h]

lemma state_to_index_congr (b b2 : Bins) (hmin : b.min = b2.min)
    (hw : b.width = b2.width) (hN : b.max_N = b2.max_N) (s : State) :
    b.state_to_index s = b2.state_to_index s := by
  unfold Bins.state_to_index
  rw [hmin, hw, hN]

lemma remapIdx_congr (old nb nb2 : Bins) (hmin : nb.min = nb2.min)
    (hw : nb.width = nb2.width) (hN : nb.max_N = nb2.max_N) (i : ℕ) :
    Bins.remapIdx old nb i = Bins.remapIdx old nb2 i :=
  state_to_index_congr nb nb2 hmin hw hN _

/-- The inverse property behind claim C3: for any index, indexing the
reconstructed bin-center state gives the index back. -/
lemma state_to_index_index_to_state (b : Bins) (hw : 0 < b.width) (i : ℕ) :
    b.state_to_index (b.index_to_state i) = i := by
  have hw' : b.width ≠ 0 := ne_of_gt hw
  unfold Bins.state_to_index Bins.index_to_state
  dsimp only
  set q := i / (b.max_N + 1) with hq
  have hdiv : (b.min + ((q : ℚ) + 1 / 2) * b.width - b.min) / b.width = (q : ℚ) + 1 / 2 := by
    field_simp
    ring
  rw [hdiv]
  have hfl : ⌊(q : ℚ) + 1 / 2⌋ = (q : ℤ) := by
    rw [Int.floor_eq_iff]
    constructor
    · push_cast
      linarith
    · push_cast
      linarith
  rw [hfl, Int.toNat_natCast]
  have hmod := Nat.div_add_mod i (b.max_N + 1)
  rw [← hq, Nat.mul_comm] at hmod
  exact hmod

lemma remapIdx_closed (old nb : Bins) (k : ℕ) (hw : 0 < old.width)
    (hW : nb.width = old.width) (hM : nb.min = old.min - (k : ℚ) * old.width) (i : ℕ) :
    Bins.remapIdx old nb i
      = (i / (old.max_N + 1) + k) * (nb.max_N + 1) + i % (old.max_N + 1) := by
  have hw' : old.width ≠ 0 := ne_of_gt hw
  unfold Bins.remapIdx Bins.state_to_index Bins.index_to_state
  dsimp only
  rw [hW, hM]
  set q := i / (old.max_N + 1) with hq
  have hdiv : (old.min + ((q : ℚ) + 1 / 2) * old.width - (old.min - (k : ℚ) * old.width))
      / old.width = (q : ℚ) + (k : ℚ) + 1 / 2 := by
    field_simp
    ring
  rw [hdiv]
  have hfl : ⌊(q : ℚ) + (k : ℚ) + 1 / 2⌋ = ((q + k : ℕ) : ℤ) := by
    rw [Int.floor_eq_iff]
    constructor
    · push_cast
      linarith
    · push_cast
      linarith
  rw [hfl, Int.toNat_natCast]

lemma remapIdx_lt (old nb : Bins) (k : ℕ) (hw : 0 < old.width)
    (hW : nb.width = old.width) (hM : nb.min = old.min - (k : ℚ) * old.width)
    (hmaxN : old.max_N ≤ nb.max_N) (hnumE : old.num_E + k ≤ nb.num_E)
    (i : ℕ) (hi : i < old.nbins) :
    Bins.remapIdx old nb i < nb.nbins := by
  rw [remapIdx_closed old nb k hw hW hM]
  unfold Bins.nbins at hi ⊢
  have hq : i / (old.max_N + 1) < old.num_E :=
    (Nat.div_lt_iff_lt_mul (by omega)).mpr hi
  have hr : i % (old.max_N + 1) < old.max_N + 1 := Nat.mod_lt _ (by omega)
  have h1 : (i / (old.max_N + 1) + k) * (nb.max_N + 1) + i % (old.max_N + 1)
      < (i / (old.max_N + 1) + k + 1) * (nb.max_N + 1) := by
    have hexp : (i / (old.max_N + 1) + k + 1) * (nb.max_N + 1)
        = (i / (old.max_N + 1) + k) * (nb.max_N + 1) + (nb.max_N + 1) := by
      ring
    omega
  have h2 : (i / (old.max_N + 1) + k + 1) * (nb.max_N + 1)
      ≤ nb.num_E * (nb.max_N + 1) :=
    Nat.mul_le_mul_right _ (by omega)
  omega

lemma remapIdx_inj (old nb : Bins) (k : ℕ) (hw : 0 < old.width)
    (hW : nb.width = old.width) (hM : nb.min = old.min - (k : ℚ) * old.width)
    (hmaxN : old.max_N ≤ nb.max_N)
    (i i2 : ℕ) (heq : Bins.remapIdx old nb i = Bins.remapIdx old nb i2) : i = i2 := by
  rw [remapIdx_closed old nb k hw hW hM, remapIdx_closed old nb k hw hW hM] at heq
  have hr : i % (old.max_N + 1) < nb.max_N + 1 :=
    lt_of_lt_of_le (Nat.mod_lt _ (by omega)) (by omega)
  have hr2 : i2 % (old.max_N + 1) < nb.max_N + 1 :=
    lt_of_lt_of_le (Nat.mod_lt _ (by omega)) (by omega)
  have hdivs : ((i / (old.max_N + 1) + k) * (nb.max_N + 1) + i % (old.max_N + 1))
      / (nb.max_N + 1) = i / (old.max_N + 1) + k := by
    rw [Nat.mul_comm, Nat.mul_add_div (by omega), Nat.div_eq_of_lt hr]
    omega
  have hdivs2 : ((i2 / (old.max_N + 1) + k) * (nb.max_N + 1) + i2 % (old.max_N + 1))
      / (nb.max_N + 1) = i2 / (old.max_N + 1) + k := by
    rw [Nat.mul_comm, Nat.mul_add_div (by omega), Nat.div_eq_of_lt hr2]
    omega
  have hmods : ((i / (old.max_N + 1) + k) * (nb.max_N + 1) + i % (old.max_N + 1))
      % (nb.max_N + 1) = i % (old.max_N + 1) := by
    rw [Nat.mul_comm, Nat.mul_add_mod, Nat.mod_eq_of_lt hr]
  have hmods2 : ((i2 / (old.max_N + 1) + k) * (nb.max_N + 1) + i2 % (old.max_N + 1))
      % (nb.max_N + 1) = i2 % (old.max_N + 1) := by
    rw [Nat.mul_comm, Nat.mul_add_mod, Nat.mod_eq_of_lt hr2]
  have hq : i / (old.max_N + 1) = i2 / (old.max_N + 1) := by
    have := congrArg (· / (nb.max_N + 1)) heq
    simp only at this
    rw [hdivs, hdivs2] at this
    omega
  have hm : i % (old.max_N + 1) = i2 % (old.max_N + 1) := by
    have := congrArg (· % (nb.max_N + 1)) heq
    simp only at this
    rw [hmods, hmods2] at this
    exact this
  have d1 := Nat.div_add_mod i (old.max_N + 1)
  have d2 := Nat.div_add_mod i2 (old.max_N + 1)
  have hrw : (old.max_N + 1) * (i / (old.max_N + 1))
      = (old.max_N + 1) * (i2 / (old.max_N + 1)) := by
    rw [hq]
  omega

lemma growMinLoop_spec (w e : ℚ) (hw : 0 < w) (mn : ℚ) (numE : ℕ) :
    ∃ k : ℕ, growMinLoop w e mn numE = (mn - (k : ℚ) * w, numE + k) ∧
      (growMinLoop w e mn numE).1 ≤ e := by
  induction mn, numE using growMinLoop.induct w e with
  | case1 mn numE h ih =>
    obtain ⟨k, hk, hle⟩ := ih
    refine ⟨k + 1, ?_, ?_⟩
    · rw [growMinLoop, dif_pos h, hk]
      simp only [Prod.mk.injEq]
      constructor
      · push_cast
        ring
      · omega
    · rw [growMinLoop, dif_pos h]
      exact hle
  | case2 mn numE h =>
    have hle : mn ≤ e := by
      rcases not_and_or.mp h with h1 | h2
      · exact absurd hw h1
      · linarith [not_lt.mp h2]
    refine ⟨0, ?_, ?_⟩
    · rw [growMinLoop, dif_neg h]
      simp
    · rw [growMinLoop, dif_neg h]
      exact hle

lemma growNumELoop_spec (w e mn : ℚ) (hw : 0 < w) (numE : ℕ) :
    ∃ d : ℕ, growNumELoop w e mn numE = numE + d ∧
      e < mn + w * ((growNumELoop w e mn numE : ℕ) : ℚ) := by
  induction numE using growNumELoop.induct w e mn with
  | case1 numE h ih =>
    obtain ⟨d, hd, hlt⟩ := ih
    refine ⟨d + 1, ?_, ?_⟩
    · rw [growNumELoop, dif_pos h, hd]
      omega
    · rw [growNumELoop, dif_pos h]
      exact hlt
  | case2 numE h =>
    have hlt : e < mn + w * (numE : ℚ) := by
      rcases not_and_or.mp h with h1 | h2
      · exact absurd hw h1
      · linarith [not_le.mp h2]
    refine ⟨0, ?_, ?_⟩
    · rw [growNumELoop, dif_neg h]
      omega
    · rw [growNumELoop, dif_neg h]
      exact hlt

lemma copyPerN_fields (old nb : Bins) (n : ℕ) :
    (copyPerN old nb n).min = nb.min ∧ (copyPerN old nb n).width = nb.width ∧
    (copyPerN old nb n).max_N = nb.max_N ∧ (copyPerN old nb n).num_E = nb.num_E ∧
    (copyPerN old nb n).lnw = nb.lnw ∧
    (copyPerN old nb n).histogram = nb.histogram ∧
    (copyPerN old nb n).have_visited_since_maxentropy
      = nb.have_visited_since_maxentropy ∧
    (copyPerN old nb n).round_trips = nb.round_trips := by
  induction n with
  | zero => exact ⟨rfl, rfl, rfl, rfl, rfl, rfl, rfl, rfl⟩
  | succ m ih =>
    obtain ⟨h1, h2, h3, h4, h5, h6, h7, h8⟩ := ih
    exact ⟨h1, h2, h3, h4, h5, h6, h7, h8⟩

lemma remapLoop_fields (old nb : Bins) (n : ℕ) :
    (remapLoop old nb n).min = nb.min ∧ (remapLoop old nb n).width = nb.width ∧
    (remapLoop old nb n).max_N = nb.max_N ∧ (remapLoop old nb n).num_E = nb.num_E ∧
    (remapLoop old nb n).lnw.length = nb.lnw.length ∧
    (remapLoop old nb n).histogram.length = nb.histogram.length ∧
    (remapLoop old nb n).have_visited_since_maxentropy.length
      = nb.have_visited_since_maxentropy.length ∧
    (remapLoop old nb n).round_trips.length = nb.round_trips.length := by
  induction n with
  | zero => exact ⟨rfl, rfl, rfl, rfl, rfl, rfl, rfl, rfl⟩
  | succ m ih =>
    obtain ⟨h1, h2, h3, h4, h5, h6, h7, h8⟩ := ih
    refine ⟨h1, h2, h3, h4, ?_, ?_, ?_, ?_⟩ <;>
      simp only [remapLoop, List.length_set, h5, h6, h7, h8]

lemma remapLoop_step_index (old nb : Bins) (m : ℕ) :
    (remapLoop old nb m).state_to_index (old.index_to_state m)
      = Bins.remapIdx old nb m := by
  obtain ⟨h1, h2, h3, _, _, _, _, _⟩ := remapLoop_fields old nb m
  exact state_to_index_congr _ _ h1 h2 h3 _

lemma remapLoop_getD_miss (old nb : Bins) (n : ℕ) (j : ℕ)
    (hmiss : ∀ i, i < n → Bins.remapIdx old nb i ≠ j) :
    (remapLoop old nb n).lnw.getD j 0 = nb.lnw.getD j 0 ∧
    (remapLoop old nb n).histogram.getD j 0 = nb.histogram.getD j 0 ∧
    (remapLoop old nb n).have_visited_since_maxentropy.getD j false
      = nb.have_visited_since_maxentropy.getD j false ∧
    (remapLoop old nb n).round_trips.getD j 0 = nb.round_trips.getD j 0 := by
  induction n with
  | zero => exact ⟨rfl, rfl, rfl, rfl⟩
  | succ m ih =>
    obtain ⟨h1, h2, h3, h4⟩ := ih (fun i hi => hmiss i (by omega))
    have hne : (remapLoop old nb m).state_to_index (old.index_to_state m) ≠ j := by
      rw [remapLoop_step_index]
      exact hmiss m (by omega)
    refine ⟨?_, ?_, ?_, ?_⟩ <;>
      simp only [remapLoop, getD_set_ne' _ _ _ _ _ hne, h1, h2, h3, h4]

lemma remapLoop_getD_hit (old nb : Bins) (n : ℕ) (i : ℕ) (hi : i < n)
    (hlt : Bins.remapIdx old nb i < nb.lnw.length)
    (hlen2 : nb.histogram.length = nb.lnw.length)
    (hlen3 : nb.have_visited_since_maxentropy.length = nb.lnw.length)
    (hlen4 : nb.round_trips.length = nb.lnw.length)
    (hinj : ∀ i2, i2 < n → Bins.remapIdx old nb i2 = Bins.remapIdx old nb i → i2 = i) :
    (remapLoop old nb n).lnw.getD (Bins.remapIdx old nb i) 0 = old.lnw.getD i 0 ∧
    (remapLoop old nb n).histogram.getD (Bins.remapIdx old nb i) 0
      = old.histogram.getD i 0 ∧
    (remapLoop old nb n).have_visited_since_maxentropy.getD (Bins.remapIdx old nb i) false
      = old.have_visited_since_maxentropy.getD i false ∧
    (remapLoop old nb n).round_trips.getD (Bins.remapIdx old nb i) 0
      = old.round_trips.getD i 0 := by
  induction n with
  | zero => omega
  | succ m ih =>
    obtain ⟨f1, f2, f3, f4, f5, f6, f7, f8⟩ := remapLoop_fields old nb m
    by_cases hcase : i = m
    · subst hcase
      have hlt1 : Bins.remapIdx old nb i < (remapLoop old nb i).lnw.length := by
        rw [f5]
        exact hlt
      have hlt2 : Bins.remapIdx old nb i < (remapLoop old nb i).histogram.length := by
        rw [f6, hlen2]
        exact hlt
      have hlt3 : Bins.remapIdx old nb i
          < (remapLoop old nb i).have_visited_since_maxentropy.length := by
        rw [f7, hlen3]
        exact hlt
      have hlt4 : Bins.remapIdx old nb i < (remapLoop old nb i).round_trips.length := by
        rw [f8, hlen4]
        exact hlt
      refine ⟨?_, ?_, ?_, ?_⟩ <;>
        simp only [remapLoop, remapLoop_step_index] <;>
        rw [getD_set_self']
      · exact hlt1
      · exact hlt2
      · exact hlt3
      · exact hlt4
    · have hi' : i < m := by
        omega
      obtain ⟨h1, h2, h3, h4⟩ := ih hi' (fun i2 h2' he => hinj i2 (by omega) he)
      have hne : (remapLoop old nb m).state_to_index (old.index_to_state m)
          ≠ Bins.remapIdx old nb i := by
        rw [remapLoop_step_index]
        intro he
        exact hcase (hinj m (by omega) he).symm
      refine ⟨?_, ?_, ?_, ?_⟩ <;>
        simp only [remapLoop, getD_set_ne' _ _ _ _ _ hne, h1, h2, h3, h4]

lemma grownFresh_min (b : Bins) (e : State) :
    (b.grownFresh e).min = (growMinLoop b.width e.E b.min b.num_E).1 := rfl

lemma grownFresh_width (b : Bins) (e : State) : (b.grownFresh e).width = b.width := rfl

lemma grownFresh_maxN (b : Bins) (e : State) :
    (b.grownFresh e).max_N = if b.max_N < e.N then e.N else b.max_N := rfl

lemma grownFresh_numE (b : Bins) (e : State) :
    (b.grownFresh e).num_E = growNumELoop b.width e.E
      (growMinLoop b.width e.E b.min b.num_E).1 (growMinLoop b.width e.E b.min b.num_E).2 := rfl

lemma grownFresh_lnw (b : Bins) (e : State) :
    (b.grownFresh e).lnw = List.replicate ((b.grownFresh e).nbins) 0 := rfl

lemma grownFresh_histogram (b : Bins) (e : State) :
    (b.grownFresh e).histogram = List.replicate ((b.grownFresh e).nbins) 0 := rfl

lemma grownFresh_flags (b : Bins) (e : State) :
    (b.grownFresh e).have_visited_since_maxentropy
      = List.replicate ((b.grownFresh e).nbins) false := rfl

lemma grownFresh_rt (b : Bins) (e : State) :
    (b.grownFresh e).round_trips = List.replicate ((b.grownFresh e).nbins) 0 := rfl

/-- Bundles the grid facts about the grown Bins that claims C2 and C10
need: the grow keeps the width, lowers min by a whole number of bins, only
enlarges the grid, and the grown arrays are sized to the grown grid. -/
lemma grown_grid_spec (b : Bins) (e : State) (hw : 0 < b.width) :
    ∃ k : ℕ,
      (b.grown e).width = b.width ∧
      (b.grown e).min = b.min - (k : ℚ) * b.width ∧
      b.max_N ≤ (b.grown e).max_N ∧
      e.N ≤ (b.grown e).max_N ∧
      b.num_E + k ≤ (b.grown e).num_E ∧
      (b.grown e).min ≤ e.E ∧
      e.E < (b.grown e).min + (b.grown e).width * ((b.grown e).num_E : ℚ) ∧
      (b.grown e).lnw.length = (b.grown e).nbins ∧
      (b.grown e).histogram.length = (b.grown e).nbins ∧
      (b.grown e).have_visited_since_maxentropy.length = (b.grown e).nbins ∧
      (b.grown e).round_trips.length = (b.grown e).nbins := by
  obtain ⟨cf1, cf2, cf3, cf4, cf5, cf6, cf7, cf8⟩ :=
    copyPerN_fields b (b.grownFresh e) (b.max_N + 1)
  obtain ⟨rf1, rf2, rf3, rf4, rf5, rf6, rf7, rf8⟩ :=
    remapLoop_fields b (copyPerN b (b.grownFresh e) (b.max_N + 1)) b.lnw.length
  have hgmin : (b.grown e).min = (b.grownFresh e).min := by
    rw [Bins.grown, rf1, cf1]
  have hgwidth : (b.grown e).width = (b.grownFresh e).width := by
    rw [Bins.grown, rf2, cf2]
  have hgmaxN : (b.grown e).max_N = (b.grownFresh e).max_N := by
    rw [Bins.grown, rf3, cf3]
  have hgnumE : (b.grown e).num_E = (b.grownFresh e).num_E := by
    rw [Bins.grown, rf4, cf4]
  have hgnbins : (b.grown e).nbins = (b.grownFresh e).nbins := by
    unfold Bins.nbins
    rw [hgmaxN, hgnumE]
  obtain ⟨k, hk, hkle⟩ := growMinLoop_spec b.width e.E hw b.min b.num_E
  obtain ⟨d, hd, hdlt⟩ := growNumELoop_spec b.width e.E
    (growMinLoop b.width e.E b.min b.num_E).1 hw (growMinLoop b.width e.E b.min b.num_E).2
  have hp1 : (growMinLoop b.width e.E b.min b.num_E).1 = b.min - (k : ℚ) * b.width := by
    rw [hk]
  have hp2 : (growMinLoop b.width e.E b.min b.num_E).2 = b.num_E + k := by
    rw [hk]
  refine ⟨k, ?_, ?_, ?_, ?_, ?_, ?_, ?_, ?_, ?_, ?_, ?_⟩
  · rw [hgwidth, grownFresh_width]
  · rw [hgmin, grownFresh_min, hp1]
  · rw [hgmaxN, grownFresh_maxN]
    split <;> omega
  · rw [hgmaxN, grownFresh_maxN]
    split <;> omega
  · rw [hgnumE, grownFresh_numE, hd, hp2]
    omega
  · rw [hgmin, grownFresh_min]
    exact hkle
  · rw [hgmin, grownFresh_min, hgwidth, grownFresh_width, hgnumE, grownFresh_numE]
    exact hdlt
  · have hlen : (b.grown e).lnw.length = (b.grownFresh e).nbins := by
      rw [Bins.grown, rf5, cf5, grownFresh_lnw]
      simp
    rw [hlen, hgnbins]
  · have hlen : (b.grown e).histogram.length = (b.grownFresh e).nbins := by
      rw [Bins.grown, rf6, cf6, grownFresh_histogram]
      simp
    rw [hlen, hgnbins]
  · have hlen : (b.grown e).have_visited_since_maxentropy.length
        = (b.grownFresh e).nbins := by
      rw [Bins.grown, rf7, cf7, grownFresh_flags]
      simp
    rw [hlen, hgnbins]
  · have hlen : (b.grown e).round_trips.length = (b.grownFresh e).nbins := by
      rw [Bins.grown, rf8, cf8, grownFresh_rt]
      simp
    rw [hlen, hgnbins]

/-- Preservation and freshness across the grow-and-remap of
Bins::prepare_for_state: every old per-bin entry reappears unchanged at its
remapped index, and every index not hit by the remap keeps its zero/false
initial value. -/
lemma grown_preserve (b : Bins) (e : State) (hw : 0 < b.width) (hwf : b.wf) :
    (∀ i, i < b.nbins →
      Bins.remapIdx b (b.grown e) i < (b.grown e).nbins ∧
      (b.grown e).lnw.getD (Bins.remapIdx b (b.grown e) i) 0 = b.lnw.getD i 0 ∧
      (b.grown e).histogram.getD (Bins.remapIdx b (b.grown e) i) 0
        = b.histogram.getD i 0 ∧
      (b.grown e).have_visited_since_maxentropy.getD (Bins.remapIdx b (b.grown e) i) false
        = b.have_visited_since_maxentropy.getD i false ∧
      (b.grown e).round_trips.getD (Bins.remapIdx b (b.grown e) i) 0
        = b.round_trips.getD i 0) ∧
    (∀ j, j < (b.grown e).nbins →
      (∀ i, i < b.nbins → Bins.remapIdx b (b.grown e) i ≠ j) →
      (b.grown e).lnw.getD j 0 = 0 ∧
      (b.grown e).histogram.getD j 0 = 0 ∧
      (b.grown e).have_visited_since_maxentropy.getD j false = false ∧
      (b.grown e).round_trips.getD j 0 = 0) := by
  obtain ⟨cf1, cf2, cf3, cf4, cf5, cf6, cf7, cf8⟩ :=
    copyPerN_fields b (b.grownFresh e) (b.max_N + 1)
  obtain ⟨rf1, rf2, rf3, rf4, rf5, rf6, rf7, rf8⟩ :=
    remapLoop_fields b (copyPerN b (b.grownFresh e) (b.max_N + 1)) b.lnw.length
  obtain ⟨hwfh, hwfl, hwff, hwfr, _, _, _⟩ := hwf
  set nb1 := copyPerN b (b.grownFresh e) (b.max_N + 1) with hnb1
  obtain ⟨k, hk, hkle⟩ := growMinLoop_spec b.width e.E hw b.min b.num_E
  have hW1 : nb1.width = b.width := by
    rw [cf2, grownFresh_width]
  have hM1 : nb1.min = b.min - (k : ℚ) * b.width := by
    rw [cf1, grownFresh_min, hk]
  have hmaxN1 : b.max_N ≤ nb1.max_N := by
    rw [cf3, grownFresh_maxN]
    split <;> omega
  have hnumE1 : b.num_E + k ≤ nb1.num_E := by
    obtain ⟨d, hd, hdlt⟩ := growNumELoop_spec b.width e.E
      (growMinLoop b.width e.E b.min b.num_E).1 hw (growMinLoop b.width e.E b.min b.num_E).2
    rw [cf4, grownFresh_numE, hd, hk]
    dsimp only
    omega
  have hfreshbins : nb1.nbins = (b.grownFresh e).nbins := by
    unfold Bins.nbins
    rw [cf3, cf4]
  have hlen1 : nb1.lnw.length = nb1.nbins := by
    rw [cf5, grownFresh_lnw, hfreshbins]
    simp
  have hlen2 : nb1.histogram.length = nb1.lnw.length := by
    rw [cf5, cf6, grownFresh_lnw, grownFresh_histogram]
    simp
  have hlen3 : nb1.have_visited_since_maxentropy.length = nb1.lnw.length := by
    rw [cf5, cf7, grownFresh_lnw, grownFresh_flags]
    simp
  have hlen4 : nb1.round_trips.length = nb1.lnw.length := by
    rw [cf5, cf8, grownFresh_lnw, grownFresh_rt]
    simp
  have hgrown : b.grown e = remapLoop b nb1 b.lnw.length := rfl
  have hremap : ∀ i, Bins.remapIdx b (b.grown e) i = Bins.remapIdx b nb1 i := by
    intro i
    exact remapIdx_congr b (b.grown e) nb1 rf1 rf2 rf3 i
  have hnbins_g : (b.grown e).nbins = nb1.nbins := by
    unfold Bins.nbins
    rw [hgrown, rf3, rf4]
  constructor
  · intro i hi
    have hi' : i < b.lnw.length := by
      rw [hwfl]
      exact hi
    have hltidx : Bins.remapIdx b nb1 i < nb1.nbins :=
      remapIdx_lt b nb1 k hw hW1 hM1 hmaxN1 hnumE1 i hi
    have hlt : Bins.remapIdx b nb1 i < nb1.lnw.length := by
      rw [hlen1]
      exact hltidx
    have hinj : ∀ i2, i2 < b.lnw.length →
        Bins.remapIdx b nb1 i2 = Bins.remapIdx b nb1 i → i2 = i :=
      fun i2 _ he => remapIdx_inj b nb1 k hw hW1 hM1 hmaxN1 i2 i he
    obtain ⟨g1, g2, g3, g4⟩ :=
      remapLoop_getD_hit b nb1 b.lnw.length i hi' hlt hlen2 hlen3 hlen4 hinj
    refine ⟨?_, ?_, ?_, ?_, ?_⟩
    · rw [hremap, hnbins_g]
      exact hltidx
    · rw [hremap, hgrown]
      exact g1
    · rw [hremap, hgrown]
      exact g2
    · rw [hremap, hgrown]
      exact g3
    · rw [hremap, hgrown]
      exact g4
  · intro j hj hmiss
    have hmiss' : ∀ i, i < b.lnw.length → Bins.remapIdx b nb1 i ≠ j := by
      intro i hi
      have hm := hmiss i (by rw [← hwfl]; exact hi)
      rw [hremap] at hm
      exact hm
    obtain ⟨m1, m2, m3, m4⟩ := remapLoop_getD_miss b nb1 b.lnw.length j hmiss'
    have hjfresh : j < (b.grownFresh e).nbins := by
      rw [← hfreshbins, ← hnbins_g]
      exact hj
    refine ⟨?_, ?_, ?_, ?_⟩
    · rw [hgrown, m1, cf5, grownFresh_lnw]
      exact getD_replicate' _ _ _ _ hjfresh
    · rw [hgrown, m2, cf6, grownFresh_histogram]
      exact getD_replicate' _ _ _ _ hjfresh
    · rw [hgrown, m3, cf7, grownFresh_flags]
      exact getD_replicate' _ _ _ _ hjfresh
    · rw [hgrown, m4, cf8, grownFresh_rt]
      exact getD_replicate' _ _ _ _ hjfresh

/-- Claim C3: for every Bins grid with positive width and every valid
linear index i < num_E * (max_N + 1), state_to_index(index_to_state(i))
equals i: index_to_state reconstructs the bin-center state and
state_to_index maps it back to the same index. -/
theorem C3_state_index_inverse (b : Bins) (hw : 0 < b.width) (i : ℕ)
    (hi : i < b.num_E * (b.max_N + 1)) :
    b.state_to_index (b.index_to_state i) = i :=
  state_to_index_index_to_state b hw i

theorem C3_state_index_inverse_witness :
    (0 : ℚ) < exB2.width ∧ 1 < exB2.num_E * (exB2.max_N + 1) ∧
      exB2.state_to_index (exB2.index_to_state 1) = 1 :=
  ⟨by norm_num [exB2], by norm_num [exB2],
    C3_state_index_inverse exB2 (by norm_num [exB2]) 1 (by norm_num [exB2])⟩

/-- Claim C7 (the code at the failing input): for every Bins with positive
width and every state with energy below the grid minimum, state_to_index
does NOT fail: the saturating float-to-usize cast turns the negative bin
offset into zero, so the call returns the normal index s.N.  This
contradicts both the claim and the doc comment on the source function
(which says it should panic). -/
theorem C7_state_to_index_below_min (b : Bins) (s : State) (hw : 0 < b.width)
    (hE : s.E < b.min) : b.state_to_index s = s.N := by
  unfold Bins.state_to_index
  have hneg : (s.E - b.min) / b.width < 0 :=
    div_neg_of_neg_of_pos (by linarith) hw
  have hfl : ⌊(s.E - b.min) / b.width⌋ < 0 := by
    rw [Int.floor_lt]
    exact_mod_cast hneg
  rw [Int.toNat_of_nonpos (by omega)]
  simp

theorem C7_state_to_index_below_min_witness :
    (0 : ℚ) < exB1.width ∧ (State.mk (-1) 0).E < exB1.min ∧
      exB1.state_to_index (State.mk (-1) 0) = 0 :=
  ⟨by norm_num [exB1], by norm_num [exB1],
    C7_state_to_index_below_min exB1 (State.mk (-1) 0) (by norm_num [exB1])
      (by norm_num [exB1])⟩

/-- Claim C2: for every well-formed Bins with positive width,
prepare_for_state returns true exactly when the state falls outside the
grid; when it does, the grown grid covers the state, every old histogram,
lnw, round_trips and have_visited_since_maxentropy entry reappears
unchanged at index state_to_index(index_to_state(i)) computed in the new
grid, and every index not produced by that remap holds the zero/false
initial value; when the state was already covered the Bins is returned
unchanged with false. -/
theorem C2_prepare_grow_remap (b : Bins) (e : State) (hw : 0 < b.width)
    (hwf : b.wf) :
    ((b.prepare_for_state e).2 = true ↔ Bins.outside b e) ∧
    (¬ Bins.outside b e → b.prepare_for_state e = (b, false)) ∧
    (Bins.outside b e →
      ¬ Bins.outside (b.prepare_for_state e).1 e ∧
      (∀ i, i < b.nbins →
        Bins.remapIdx b (b.prepare_for_state e).1 i < (b.prepare_for_state e).1.nbins ∧
        (b.prepare_for_state e).1.histogram.getD
            (Bins.remapIdx b (b.prepare_for_state e).1 i) 0 = b.histogram.getD i 0 ∧
        (b.prepare_for_state e).1.lnw.getD
            (Bins.remapIdx b (b.prepare_for_state e).1 i) 0 = b.lnw.getD i 0 ∧
        (b.prepare_for_state e).1.round_trips.getD
            (Bins.remapIdx b (b.prepare_for_state e).1 i) 0 = b.round_trips.getD i 0 ∧
        (b.prepare_for_state e).1.have_visited_since_maxentropy.getD
            (Bins.remapIdx b (b.prepare_for_state e).1 i) false
          = b.have_visited_since_maxentropy.getD i false) ∧
      (∀ j, j < (b.prepare_for_state e).1.nbins →
        (∀ i, i < b.nbins → Bins.remapIdx b (b.prepare_for_state e).1 i ≠ j) →
        (b.prepare_for_state e).1.histogram.getD j 0 = 0 ∧
        (b.prepare_for_state e).1.lnw.getD j 0 = 0 ∧
        (b.prepare_for_state e).1.round_trips.getD j 0 = 0 ∧
        (b.prepare_for_state e).1.have_visited_since_maxentropy.getD j false
          = false)) := by
  by_cases ho : Bins.outside b e
  · have hp : b.prepare_for_state e = (b.grown e, true) := by
      unfold Bins.prepare_for_state
      rw [if_pos ho]
    obtain ⟨hpres, hfresh⟩ := grown_preserve b e hw hwf
    obtain ⟨k, hg1, hg2, hg3, hg4, hg5, hg6, hg7, hg8, hg9, hg10, hg11⟩ :=
      grown_grid_spec b e hw
    refine ⟨?_, ?_, ?_⟩
    · rw [hp]
      simp [ho]
    · intro hno
      exact absurd ho hno
    · intro _
      rw [hp]
      dsimp only
      refine ⟨?_, ?_, ?_⟩
      · unfold Bins.outside Bins.emax
        push_neg
        refine ⟨?_, hg6, ?_⟩
        · omega
        · exact hg7
      · intro i hi
        obtain ⟨p1, p2, p3, p4, p5⟩ := hpres i hi
        exact ⟨p1, p3, p2, p5, p4⟩
      · intro j hj hm
        obtain ⟨q1, q2, q3, q4⟩ := hfresh j hj hm
        exact ⟨q2, q1, q4, q3⟩
  · have hp : b.prepare_for_state e = (b, false) := by
      unfold Bins.prepare_for_state
      rw [if_neg ho]
    refine ⟨?_, ?_, ?_⟩
    · rw [hp]
      simp [ho]
    · intro _
      exact hp
    · intro hcontra
      exact absurd hcontra ho

theorem C2_prepare_grow_remap_witness :
    (0 : ℚ) < exB1.width ∧ exB1.wf ∧ Bins.outside exB1 (State.mk (5 / 2) 0) ∧
      ((exB1.prepare_for_state (State.mk (5 / 2) 0)).2 = true ↔
        Bins.outside exB1 (State.mk (5 / 2) 0)) :=
  ⟨by norm_num [exB1], by simp [Bins.wf, Bins.nbins, exB1],
    by norm_num [Bins.outside, Bins.emax, exB1],
    (C2_prepare_grow_remap exB1 (State.mk (5 / 2) 0) (by norm_num [exB1])
      (by simp [Bins.wf, Bins.nbins, exB1])).1⟩

/-- Claim C10: when the Wang-Landau branch of reject_move finds that the
auxiliary grid grew for the candidate state and gamma is not 1, it resets
gamma to 1 and zeroes the scalar counters lowest_hist, highest_hist and
total_hist, but the per-bin auxiliary histogram counts are NOT zeroed:
every previously accumulated count is preserved at its remapped index and
only the newly created bins are zero. -/
theorem C10_wl_restart_preserves_aux (bins : Bins) (g : ℚ) (lo hi tot : ℕ)
    (aux : Bins) (e1 e2 : State) (u : ℚ) (hw : 0 < aux.width) (hwf : aux.wf)
    (hg : g ≠ 1) (hout : Bins.outside aux e2) :
    (reject_move bins (.WL g lo hi tot aux) e1 e2 u).1
      = Method.WL 1 0 0 0 (aux.grown e2) ∧
    (∀ i, i < aux.nbins →
      (aux.grown e2).histogram.getD (Bins.remapIdx aux (aux.grown e2) i) 0
        = aux.histogram.getD i 0) ∧
    (∀ j, j < (aux.grown e2).nbins →
      (∀ i, i < aux.nbins → Bins.remapIdx aux (aux.grown e2) i ≠ j) →
      (aux.grown e2).histogram.getD j 0 = 0) := by
  have hp : aux.prepare_for_state e2 = (aux.grown e2, true) := by
    unfold Bins.prepare_for_state
    rw [if_pos hout]
  obtain ⟨hpres, hfresh⟩ := grown_preserve aux e2 hw hwf
  refine ⟨?_, ?_, ?_⟩
  · simp only [reject_move, hp]
    simp [hg]
  · intro i hi
    exact (hpres i hi).2.2.1
  · intro j hj hm
    exact (hfresh j hj hm).2.1

theorem C10_wl_restart_preserves_aux_witness :
    (0 : ℚ) < exB1.width ∧ exB1.wf ∧ (1 / 2 : ℚ) ≠ 1 ∧
      Bins.outside exB1 (State.mk (5 / 2) 0) ∧
      (reject_move exB1 (.WL (1 / 2) 3 4 5 exB1) (State.mk (1 / 2) 0)
          (State.mk (5 / 2) 0) 0).1
        = Method.WL 1 0 0 0 (exB1.grown (State.mk (5 / 2) 0)) :=
  ⟨by norm_num [exB1], by simp [Bins.wf, Bins.nbins, exB1], by norm_num,
    by norm_num [Bins.outside, Bins.emax, exB1],
    (C10_wl_restart_preserves_aux exB1 (1 / 2) 3 4 5 exB1 (State.mk (1 / 2) 0)
      (State.mk (5 / 2) 0) 0 (by norm_num [exB1]) (by simp [Bins.wf, Bins.nbins, exB1])
      (by norm_num) (by norm_num [Bins.outside, Bins.emax, exB1])).1⟩

/-- Claim C1: for both methods, when the bins of both states exist in the
grid, reject_move rejects exactly when the candidate log-weight exceeds the
current one and the uniform draw u exceeds exp(lnw1 - lnw2); in particular
a candidate with lnw2 <= lnw1 is never rejected. -/
theorem C1_reject_move_rule (bins : Bins) (m : Method) (e1 e2 : State) (u : ℚ)
    (h1 : bins.state_to_index e1 < bins.lnw.length)
    (h2 : bins.state_to_index e2 < bins.lnw.length) :
    ((reject_move bins m e1 e2 u).2 ↔
      (bins.lnw.getD (bins.state_to_index e1) 0
          < bins.lnw.getD (bins.state_to_index e2) 0 ∧
        Real.exp ((bins.lnw.getD (bins.state_to_index e1) 0 : ℝ)
            - (bins.lnw.getD (bins.state_to_index e2) 0 : ℝ)) < (u : ℝ))) ∧
    (bins.lnw.getD (bins.state_to_index e2) 0
        ≤ bins.lnw.getD (bins.state_to_index e1) 0 →
      ¬ (reject_move bins m e1 e2 u).2) := by
  have hiff : (reject_move bins m e1 e2 u).2 ↔
      (bins.lnw.getD (bins.state_to_index e1) 0
          < bins.lnw.getD (bins.state_to_index e2) 0 ∧
        Real.exp ((bins.lnw.getD (bins.state_to_index e1) 0 : ℝ)
            - (bins.lnw.getD (bins.state_to_index e2) 0 : ℝ)) < (u : ℝ)) := by
    cases m <;> simp [reject_move]
  refine ⟨hiff, fun hle hrej => ?_⟩
  obtain ⟨hlt, _⟩ := hiff.mp hrej
  exact absurd hlt (not_lt.mpr hle)

theorem C1_reject_move_rule_witness :
    exB2.state_to_index (State.mk (1 / 2) 0) < exB2.lnw.length ∧
    exB2.state_to_index (State.mk (3 / 2) 0) < exB2.lnw.length ∧
    exB2.lnw.getD (exB2.state_to_index (State.mk (3 / 2) 0)) 0
      ≤ exB2.lnw.getD (exB2.state_to_index (State.mk (1 / 2) 0)) 0 ∧
    ¬ (reject_move exB2 (.Samc 1000) (State.mk (1 / 2) 0)
        (State.mk (3 / 2) 0) (1 / 2)).2 :=
  ⟨by norm_num [Bins.state_to_index, exB2],
    by norm_num [Bins.state_to_index, exB2],
    by norm_num [Bins.state_to_index, exB2],
    (C1_reject_move_rule exB2 (.Samc 1000) (State.mk (1 / 2) 0)
      (State.mk (3 / 2) 0) (1 / 2)
      (by norm_num [Bins.state_to_index, exB2])
      (by norm_num [Bins.state_to_index, exB2])).2
      (by norm_num [Bins.state_to_index, exB2])⟩

/-- Claim C5: in SAMC mode with parameter t0 and positive move count t,
gamma() is exactly 1 when t <= t0 and exactly t0/t when t > t0, and
update_weights only adds that gamma to the visited bin's log-weight,
leaving everything else (including the Method) unchanged. -/
theorem C5_samc_gamma_update (bins : Bins) (t0 : ℚ) (moves : ℕ) (s : State)
    (hm : 0 < moves) :
    (((moves : ℚ) ≤ t0 → gammaOf (.Samc t0) moves = 1) ∧
      (t0 < (moves : ℚ) → gammaOf (.Samc t0) moves = t0 / (moves : ℚ))) ∧
    update_weights bins (.Samc t0) moves s =
      ({ bins with lnw := (bins.lnw.set (bins.state_to_index s)
          (bins.lnw.getD (bins.state_to_index s) 0 + gammaOf (.Samc t0) moves)) },
        .Samc t0) := by
  refine ⟨⟨?_, ?_⟩, ?_⟩
  · intro hle
    simp [gammaOf, not_lt.mpr hle]
  · intro hlt
    simp [gammaOf, hlt]
  · rfl

theorem C5_samc_gamma_update_witness :
    0 < 5 ∧ (5 : ℚ) ≤ 10 ∧ gammaOf (.Samc 10) 5 = 1 :=
  ⟨by norm_num, by norm_num,
    ((C5_samc_gamma_update exB1 10 5 (State.mk (1 / 2) 0) (by norm_num)).1).1
      (by norm_num)⟩

/-- Claim C4 (amended): in Wang-Landau mode, across one update_weights
step gamma never increases and changes only by halving; a halving happens
exactly when the visited bin's auxiliary count has just become
lowest_hist+1, that value is the minimum of the auxiliary counts over the
bins whose MAIN histogram count is non-zero (the source filters by the
main histogram, not by the auxiliary one), the auxiliary grid has more
than one bin, and lowest_hist+1 >= 0.8 * total_hist / num_states;
immediately after a halving the auxiliary histogram is all-zero and
total_hist and lowest_hist are 0. -/
theorem C4_wl_gamma_halving (bins : Bins) (g : ℚ) (lo hi tot : ℕ) (aux : Bins)
    (moves : ℕ) (s : State) (hg : 0 < g)
    (hlen : bins.state_to_index s < aux.histogram.length) :
    ∃ g2 lo2 hi2 tot2 aux2,
      (update_weights bins (.WL g lo hi tot aux) moves s).2
        = Method.WL g2 lo2 hi2 tot2 aux2 ∧
      (g2 = g ∨ g2 = g * 0.5) ∧ g2 ≤ g ∧
      (g2 = g * 0.5 ↔
        (aux.histogram.getD (bins.state_to_index s) 0 + 1 = lo + 1 ∧
          minFiltered (aux.histogram.set (bins.state_to_index s)
              (aux.histogram.getD (bins.state_to_index s) 0 + 1)) bins.histogram
            = some (lo + 1) ∧
          1 < aux.histogram.length ∧
          (0.8 : ℚ) * ((tot + 1 : ℕ) : ℚ) / (bins.num_states : ℚ)
            ≤ ((lo + 1 : ℕ) : ℚ))) ∧
      (g2 = g * 0.5 →
        aux2.histogram = List.replicate aux.histogram.length 0 ∧
        tot2 = 0 ∧ lo2 = 0) := by
  have hghalf : ¬ g = g * 0.5 := by
    intro h
    nlinarith
  have hcount_eq : (aux.histogram.set (bins.state_to_index s)
      (aux.histogram.getD (bins.state_to_index s) 0 + 1)).getD (bins.state_to_index s) 0
      = aux.histogram.getD (bins.state_to_index s) 0 + 1 :=
    getD_set_self' _ _ _ _ hlen
  have hlenset : (aux.histogram.set (bins.state_to_index s)
      (aux.histogram.getD (bins.state_to_index s) 0 + 1)).length
      = aux.histogram.length := by
    simp
  unfold update_weights
  dsimp only
  simp only [hcount_eq, hlenset]
  set hcnt := aux.histogram.getD (bins.state_to_index s) 0 + 1 with hhc
  set hi2v := (if hi < hcnt then hcnt else hi) with hhi2
  split_ifs with hc1 hc2
  · refine ⟨g * 0.5, 0, hi2v, 0, _, rfl, Or.inr rfl, by linarith, ?_, ?_⟩
    · constructor
      · intro _
        refine ⟨hc1.1, hc1.2, hc2.1, ?_⟩
        have hD := hc2.2
        rw [hc1.1] at hD
        exact hD
      · intro _
        rfl
    · intro _
      exact ⟨rfl, rfl, rfl⟩
  · refine ⟨g, _, _, _, _, rfl, Or.inl rfl, le_refl g, ?_, fun h => absurd h hghalf⟩
    constructor
    · intro h
      exact absurd h hghalf
    · rintro ⟨hA, hB, hC, hD⟩
      exfalso
      apply hc2
      refine ⟨hC, ?_⟩
      rw [hA]
      exact hD
  · refine ⟨g, _, _, _, _, rfl, Or.inl rfl, le_refl g, ?_, fun h => absurd h hghalf⟩
    constructor
    · intro h
      exact absurd h hghalf
    · rintro ⟨hA, hB, hC, hD⟩
      exact absurd (And.intro hA hB) hc1

/-- Claim C4 counterexample: at this concrete Wang-Landau state the
conditions of the claim as written all hold (the visited bin's auxiliary
count has just become lowest_hist+1 = 1, that value is the minimum over the
non-zero AUXILIARY bins, the auxiliary grid has two bins, and the flatness
inequality holds with two occupied states), yet update_weights leaves gamma
at 1 and does not halve: the source takes the minimum over bins whose MAIN
histogram is non-zero, and the main histogram is non-zero at auxiliary bin
0, whose auxiliary count is still 0. -/
theorem C4_flatness_counterexample :
    (update_weights exB2 (.WL 1 0 0 0 exAux2) 7 (State.mk (3 / 2) 0)).2
      = Method.WL 1 0 1 1 { exAux2 with histogram := [0, 1] } ∧
    (1 : ℚ) ≠ 1 * 0.5 ∧
    (([0, 1] : List ℕ).filter (fun h => h != 0)).min? = some (0 + 1) ∧
    1 < ([0, 1] : List ℕ).length ∧
    (0.8 : ℚ) * ((0 + 1 : ℕ) : ℚ) / ((2 : ℕ) : ℚ) ≤ ((0 + 1 : ℕ) : ℚ) := by
  have hidx : exB2.state_to_index (State.mk (3 / 2) 0) = 1 := by
    norm_num [Bins.state_to_index, exB2]
  have hmf : minFiltered [0, 1] [1, 1] = some 0 := by decide
  have hset : (([0, 0] : List ℕ).set 1 (([0, 0] : List ℕ).getD 1 0 + 1)) = [0, 1] := by
    decide
  have hg1 : ([0, 1] : List ℕ).getD 1 0 = 1 := by decide
  refine ⟨?_, by norm_num, by decide, by decide, by norm_num⟩
  simp only [update_weights, hidx]
  norm_num [exAux2, exB2, hset, hg1, hmf, gammaOf]

theorem C4_wl_gamma_halving_witness :
    (0 : ℚ) < 1 ∧
    exB2.state_to_index (State.mk (3 / 2) 0) < exAux2.histogram.length ∧
    (∃ g2 lo2 hi2 tot2 aux2,
      (update_weights exB2 (.WL 1 0 0 0 exAux2) 7 (State.mk (3 / 2) 0)).2
        = Method.WL g2 lo2 hi2 tot2 aux2 ∧
      (g2 = 1 ∨ g2 = 1 * 0.5) ∧ g2 ≤ 1 ∧
      (g2 = 1 * 0.5 ↔
        (exAux2.histogram.getD (exB2.state_to_index (State.mk (3 / 2) 0)) 0 + 1 = 0 + 1 ∧
          minFiltered (exAux2.histogram.set (exB2.state_to_index (State.mk (3 / 2) 0))
              (exAux2.histogram.getD (exB2.state_to_index (State.mk (3 / 2) 0)) 0 + 1))
              exB2.histogram
            = some (0 + 1) ∧
          1 < exAux2.histogram.length ∧
          (0.8 : ℚ) * ((0 + 1 : ℕ) : ℚ) / (exB2.num_states : ℚ)
            ≤ ((0 + 1 : ℕ) : ℚ))) ∧
      (g2 = 1 * 0.5 →
        aux2.histogram = List.replicate exAux2.histogram.length 0 ∧
        tot2 = 0 ∧ lo2 = 0)) :=
  ⟨by norm_num,
    by norm_num [Bins.state_to_index, exB2, exAux2],
    C4_wl_gamma_halving exB2 1 0 0 0 exAux2 7 (State.mk (3 / 2) 0) (by norm_num)
      (by norm_num [Bins.state_to_index, exB2, exAux2])⟩

/-- Claim C6: under a fixed weight table (no visit exceeds the running
maximum max_S) in the state established by the max-entropy bin M (every
visited-since-maxentropy flag true), the scripted path that starts at M,
moves to some distinct bin X, returns to M and returns to X increments
round_trips[X] exactly once over the path, and not on the first visit to X
before the max-entropy detour; the per-step rule is the embedded
roundTripStep (the three-way if of move_once). -/
theorem C6_round_trip_scenario (b : Bins) (M X : ℕ)
    (hM : M = b.max_S_index) (hMX : X ≠ M)
    (hXr : X < b.round_trips.length)
    (hXf : X < b.have_visited_since_maxentropy.length)
    (hlnw : ∀ x ∈ b.lnw, x ≤ b.max_S) (h0S : 0 ≤ b.max_S)
    (hflags : b.have_visited_since_maxentropy
      = List.replicate b.have_visited_since_maxentropy.length true) :
    (roundTripStep b X M).round_trips = b.round_trips ∧
    (roundTripStep (roundTripStep b X M) M X).round_trips = b.round_trips ∧
    (roundTripStep (roundTripStep (roundTripStep b X M) M X) X M).round_trips.getD X 0
      = b.round_trips.getD X 0 + 1 ∧
    (∀ j, j ≠ X →
      (roundTripStep (roundTripStep (roundTripStep b X M) M X) X M).round_trips.getD j 0
        = b.round_trips.getD j 0) := by
  have hlnwD : ∀ j, b.lnw.getD j 0 ≤ b.max_S := by
    intro j
    by_cases hj : j < b.lnw.length
    · rw [List.getD_eq_getElem b.lnw 0 hj]
      exact hlnw _ (List.getElem_mem hj)
    · rw [List.getD_eq_default b.lnw 0 (by omega)]
      exact h0S
  have hfX : b.have_visited_since_maxentropy.getD X false = true := by
    conv_lhs => rw [hflags]
    exact getD_replicate' _ _ _ _ hXf
  have hXi : ¬ X = b.max_S_index := fun h => hMX (h.trans hM.symm)
  have hb1 : roundTripStep b X M = b := by
    unfold roundTripStep
    rw [if_neg (not_lt.mpr (hlnwD X)), if_neg hXi, if_neg (by rw [hfX]; simp)]
  set b2 : Bins := { b with have_visited_since_maxentropy := List.replicate b.have_visited_since_maxentropy.length false } with hb2def
  have hb2 : roundTripStep b M X = b2 := by
    unfold roundTripStep
    rw [if_neg (not_lt.mpr (hlnwD M)), if_pos hM, if_pos hMX]
  have hfX2 : b2.have_visited_since_maxentropy.getD X false = false := by
    rw [hb2def]
    exact getD_replicate' _ _ _ _ hXf
  have hb3 : roundTripStep b2 X M = { b2 with have_visited_since_maxentropy := b2.have_visited_since_maxentropy.set X true, round_trips := b2.round_trips.set X (b2.round_trips.getD X 0 + 1) } := by
    unfold roundTripStep
    rw [if_neg (not_lt.mpr (hlnwD X)), if_neg hXi, if_pos (by rw [hfX2]; simp)]
  refine ⟨?_, ?_, ?_, ?_⟩
  · rw [hb1]
  · rw [hb1, hb2]
  · rw [hb1, hb2, hb3]
    exact getD_set_self' _ _ _ _ hXr
  · intro j hj
    rw [hb1, hb2, hb3]
    exact getD_set_ne' _ _ _ _ _ (fun h => hj h.symm)

theorem C6_round_trip_scenario_witness :
    0 = exB2.max_S_index ∧ (1 : ℕ) ≠ 0 ∧ 1 < exB2.round_trips.length ∧
    (∀ x ∈ exB2.lnw, x ≤ exB2.max_S) ∧
    (roundTripStep exB2 1 0).round_trips = exB2.round_trips ∧
    (roundTripStep (roundTripStep (roundTripStep exB2 1 0) 0 1) 1 0).round_trips.getD 1 0
      = exB2.round_trips.getD 1 0 + 1 :=
  ⟨rfl, by decide, by decide, by decide,
    (C6_round_trip_scenario exB2 0 1 rfl (by decide) (by decide) (by decide)
      (by decide) (by norm_num [exB2]) (by decide)).1,
    (C6_round_trip_scenario exB2 0 1 rfl (by decide) (by decide) (by decide)
      (by decide) (by norm_num [exB2]) (by decide)).2.2.1⟩

lemma foldTlo_skip (b : Bins) (en lnwi : ℚ) (l : List ℕ) (acc : ℚ)
    (h : ∀ j ∈ l, ¬ 0 < b.lnw.getD j 0) :
    l.foldl (tloStep b en lnwi) acc = acc := by
  induction l generalizing acc with
  | nil => rfl
  | cons a t ih =>
    rw [List.foldl_cons]
    have hstep : tloStep b en lnwi acc a = acc := by
      unfold tloStep
      rw [if_neg (h a (by simp))]
    rw [hstep]
    exact ih acc (fun j hj => h j (by simp [hj]))

lemma foldThi_skip (b : Bins) (en lnwi : ℚ) (l : List ℕ) (acc : ℚ)
    (h : ∀ j ∈ l, ¬ 0 < b.lnw.getD j 0) :
    l.foldl (thiStep b en lnwi) acc = acc := by
  induction l generalizing acc with
  | nil => rfl
  | cons a t ih =>
    rw [List.foldl_cons]
    have hstep : thiStep b en lnwi acc a = acc := by
      unfold thiStep
      rw [if_neg (h a (by simp))]
    rw [hstep]
    exact ih acc (fun j hj => h j (by simp [hj]))

/-- Claim C9 (amended): on a weight table with exactly two occupied bins
(particle count fixed at 0, lnw increasing with energy), temperature at the
LOWER occupied bin returns the finite positive finite-difference slope; at
the UPPER occupied bin the 1e300 sentinel upper bound counts as informative
and the function returns 0.5*(1e300 + slope), not the slope; this assumes
the slope is below the sentinel.  The general dispatch (average when
Thi > Tlo > 0, else Tlo when positive, else Thi) is the embedded
temperature definition. -/
theorem C9_two_bin_temperature (b : Bins) (j1 j2 : ℕ)
    (hN : b.max_N = 0) (hw : 0 < b.width)
    (hj : j1 < j2) (hj2 : j2 < b.lnw.length)
    (h1 : 0 < b.lnw.getD j1 0) (h2 : b.lnw.getD j1 0 < b.lnw.getD j2 0)
    (hothers : ∀ j, j < b.lnw.length → j ≠ j1 → j ≠ j2 → b.lnw.getD j 0 ≤ 0)
    (hsl : ((b.index_to_state j1).E - (b.index_to_state j2).E)
        / (b.lnw.getD j1 0 - b.lnw.getD j2 0) < (10 : ℚ) ^ 300) :
    0 < ((b.index_to_state j1).E - (b.index_to_state j2).E)
        / (b.lnw.getD j1 0 - b.lnw.getD j2 0) ∧
    temperature b (b.index_to_state j1)
      = ((b.index_to_state j1).E - (b.index_to_state j2).E)
        / (b.lnw.getD j1 0 - b.lnw.getD j2 0) ∧
    temperature b (b.index_to_state j2)
      = (0.5 : ℚ) * ((10 : ℚ) ^ 300
        + ((b.index_to_state j1).E - (b.index_to_state j2).E)
          / (b.lnw.getD j1 0 - b.lnw.getD j2 0)) := by
  have hlnw2 : 0 < b.lnw.getD j2 0 := lt_trans h1 h2
  have hskip : ∀ j, j < b.lnw.length → j ≠ j1 → j ≠ j2 → ¬ 0 < b.lnw.getD j 0 :=
    fun j ha hb hc => not_lt.mpr (hothers j ha hb hc)
  have hE12 : (b.index_to_state j1).E - (b.index_to_state j2).E
      = ((j1 : ℚ) - (j2 : ℚ)) * b.width := by
    unfold Bins.index_to_state
    dsimp only
    rw [hN]
    rw [Nat.div_one, Nat.div_one]
    ring
  have hslpos : 0 < ((b.index_to_state j1).E - (b.index_to_state j2).E)
      / (b.lnw.getD j1 0 - b.lnw.getD j2 0) := by
    rw [div_pos_iff]
    right
    constructor
    · rw [hE12]
      apply mul_neg_of_neg_of_pos _ hw
      have : (j1 : ℚ) < (j2 : ℚ) := by exact_mod_cast hj
      linarith
    · linarith
  have hswap : ((b.index_to_state j2).E - (b.index_to_state j1).E)
      / (b.lnw.getD j2 0 - b.lnw.getD j1 0)
      = ((b.index_to_state j1).E - (b.index_to_state j2).E)
        / (b.lnw.getD j1 0 - b.lnw.getD j2 0) := by
    rw [show (b.index_to_state j2).E - (b.index_to_state j1).E
        = -((b.index_to_state j1).E - (b.index_to_state j2).E) from by ring,
      show b.lnw.getD j2 0 - b.lnw.getD j1 0
        = -(b.lnw.getD j1 0 - b.lnw.getD j2 0) from by ring,
      neg_div_neg_eq]
  have hidx1 : b.state_to_index (b.index_to_state j1) = j1 :=
    state_to_index_index_to_state b hw j1
  have hidx2 : b.state_to_index (b.index_to_state j2) = j2 :=
    state_to_index_index_to_state b hw j2
  refine ⟨hslpos, ?_, ?_⟩
  · unfold temperature
    dsimp only
    rw [hidx1]
    have hTlo : (List.range j1).foldl
        (tloStep b (b.index_to_state j1).E (b.lnw.getD j1 0)) 0 = 0 := by
      apply foldTlo_skip
      intro j hjmem
      have hjlt : j < j1 := List.mem_range.mp hjmem
      exact hskip j (by omega) (by omega) (by omega)
    have hdec : List.range' (j1 + 1) (b.lnw.length - (j1 + 1))
        = List.range' (j1 + 1) (j2 - (j1 + 1))
          ++ j2 :: List.range' (j2 + 1) (b.lnw.length - (j2 + 1)) := by
      have hs : j1 + 1 + (j2 - (j1 + 1)) = j2 := by omega
      have hmn : b.lnw.length - j2 + (j2 - (j1 + 1)) = b.lnw.length - (j1 + 1) := by
        omega
      have ha := List.range'_append_1 (j1 + 1) (j2 - (j1 + 1)) (b.lnw.length - j2)
      rw [hs, hmn] at ha
      rw [← ha]
      congr 1
      have hn : b.lnw.length - j2 = b.lnw.length - (j2 + 1) + 1 := by omega
      rw [hn, List.range'_succ]
    have hThi : (List.range' (j1 + 1) (b.lnw.length - (j1 + 1))).foldl
        (thiStep b (b.index_to_state j1).E (b.lnw.getD j1 0)) ((10 : ℚ) ^ 300)
        = ((b.index_to_state j1).E - (b.index_to_state j2).E)
          / (b.lnw.getD j1 0 - b.lnw.getD j2 0) := by
      rw [hdec, List.foldl_append]
      have hpart1 : (List.range' (j1 + 1) (j2 - (j1 + 1))).foldl
          (thiStep b (b.index_to_state j1).E (b.lnw.getD j1 0)) ((10 : ℚ) ^ 300)
          = (10 : ℚ) ^ 300 := by
        apply foldThi_skip
        intro j hjmem
        have := List.mem_range'_1.mp hjmem
        exact hskip j (by omega) (by omega) (by omega)
      rw [hpart1, List.foldl_cons]
      have hstep : thiStep b (b.index_to_state j1).E (b.lnw.getD j1 0)
          ((10 : ℚ) ^ 300) j2
          = ((b.index_to_state j1).E - (b.index_to_state j2).E)
            / (b.lnw.getD j1 0 - b.lnw.getD j2 0) := by
        unfold thiStep
        rw [if_pos hlnw2, if_pos hsl]
      rw [hstep]
      apply foldThi_skip
      intro j hjmem
      have := List.mem_range'_1.mp hjmem
      exact hskip j (by omega) (by omega) (by omega)
    rw [hTlo, hThi]
    rw [if_neg (by simp), if_neg (by simp)]
  · unfold temperature
    dsimp only
    rw [hidx2]
    have hdec2 : List.range j2
        = List.range j1 ++ j1 :: List.range' (j1 + 1) (j2 - (j1 + 1)) := by
      rw [List.range_eq_range', List.range_eq_range']
      have ha := List.range'_append_1 0 j1 (j2 - j1)
      rw [Nat.zero_add] at ha
      rw [show j2 - j1 + j1 = j2 from by omega] at ha
      rw [← ha]
      congr 1
      have hn : j2 - j1 = j2 - (j1 + 1) + 1 := by omega
      rw [hn, List.range'_succ]
    have hTlo2 : (List.range j2).foldl
        (tloStep b (b.index_to_state j2).E (b.lnw.getD j2 0)) 0
        = ((b.index_to_state j1).E - (b.index_to_state j2).E)
          / (b.lnw.getD j1 0 - b.lnw.getD j2 0) := by
      rw [hdec2, List.foldl_append]
      have hpart1 : (List.range j1).foldl
          (tloStep b (b.index_to_state j2).E (b.lnw.getD j2 0)) 0 = 0 := by
        apply foldTlo_skip
        intro j hjmem
        have hjlt : j < j1 := List.mem_range.mp hjmem
        exact hskip j (by omega) (by omega) (by omega)
      rw [hpart1, List.foldl_cons]
      have hstep : tloStep b (b.index_to_state j2).E (b.lnw.getD j2 0) 0 j1
          = ((b.index_to_state j1).E - (b.index_to_state j2).E)
            / (b.lnw.getD j1 0 - b.lnw.getD j2 0) := by
        unfold tloStep
        rw [if_pos h1, ← hswap, if_pos (by rw [hswap]; exact hslpos)]
      rw [hstep]
      apply foldTlo_skip
      intro j hjmem
      have := List.mem_range'_1.mp hjmem
      exact hskip j (by omega) (by omega) (by omega)
    have hThi2 : (List.range' (j2 + 1) (b.lnw.length - (j2 + 1))).foldl
        (thiStep b (b.index_to_state j2).E (b.lnw.getD j2 0)) ((10 : ℚ) ^ 300)
        = (10 : ℚ) ^ 300 := by
      apply foldThi_skip
      intro j hjmem
      have := List.mem_range'_1.mp hjmem
      exact hskip j (by omega) (by omega) (by omega)
    rw [hTlo2, hThi2]
    rw [if_pos ⟨hsl, hslpos⟩]

/-- Claim C9 counterexample: on the two-occupied-bin table exB9 (lnw = 1
then 2, increasing with energy), temperature at the UPPER occupied bin
(energy 3/2) is 0.5*(1e300 + 1), not the single finite-difference slope
(3/2 - 1/2)/(2 - 1) = 1: the 1e300 sentinel upper bound is averaged in. -/
theorem C9_temperature_counterexample :
    temperature exB9 (State.mk (3 / 2) 0) = (0.5 : ℚ) * ((10 : ℚ) ^ 300 + 1) ∧
    (0.5 : ℚ) * ((10 : ℚ) ^ 300 + 1)
      ≠ ((3 / 2 : ℚ) - 1 / 2) / (2 - 1) := by
  constructor
  · have hidx : exB9.state_to_index (State.mk (3 / 2) 0) = 1 := by
      norm_num [Bins.state_to_index, exB9, exB2]
    unfold temperature
    dsimp only
    rw [hidx]
    norm_num [exB9, exB2, List.range_succ, tloStep, Bins.index_to_state]
  · norm_num

theorem C9_two_bin_temperature_witness :
    exB9.max_N = 0 ∧ (0 : ℚ) < exB9.width ∧ 0 < 1 ∧ 1 < exB9.lnw.length ∧
    (0 : ℚ) < exB9.lnw.getD 0 0 ∧ exB9.lnw.getD 0 0 < exB9.lnw.getD 1 0 ∧
    (0 < ((exB9.index_to_state 0).E - (exB9.index_to_state 1).E)
        / (exB9.lnw.getD 0 0 - exB9.lnw.getD 1 0) ∧
      temperature exB9 (exB9.index_to_state 0)
        = ((exB9.index_to_state 0).E - (exB9.index_to_state 1).E)
          / (exB9.lnw.getD 0 0 - exB9.lnw.getD 1 0) ∧
      temperature exB9 (exB9.index_to_state 1)
        = (0.5 : ℚ) * ((10 : ℚ) ^ 300
          + ((exB9.index_to_state 0).E - (exB9.index_to_state 1).E)
            / (exB9.lnw.getD 0 0 - exB9.lnw.getD 1 0))) :=
  ⟨rfl, by norm_num [exB9, exB2], by norm_num, by norm_num [exB9, exB2],
    by norm_num [exB9, exB2], by norm_num [exB9, exB2],
    C9_two_bin_temperature exB9 0 1 rfl (by norm_num [exB9, exB2]) (by norm_num)
      (by norm_num [exB9, exB2]) (by norm_num [exB9, exB2])
      (by norm_num [exB9, exB2])
      (by intro j hja hjb hjc; simp [exB9, exB2] at hja; omega)
      (by norm_num [Bins.index_to_state, exB9, exB2])⟩

/-- Claim C8 (amended): in the MoveParams::AcceptanceRate recomputation,
addremove_probability is left unchanged exactly when new_p is NaN (the
source tests is_nan, not finiteness); any non-NaN value is stored after the
0.999 upper clamp — so +infinity stores 0.999 and -infinity is stored as
-infinity even though both are non-finite.  No fatal error occurs in any
case. -/
theorem C8_addremove_nan_rule (r : ℚ) (moves accepted adr_att adr_acc : ℕ)
    (p : FVal) :
    (FVal.isNaN (newPOf r moves accepted adr_att adr_acc) = true →
      recomputeAddremove r moves accepted adr_att adr_acc p = p) ∧
    (∀ q : ℚ, newPOf r moves accepted adr_att adr_acc = .fin q →
      recomputeAddremove r moves accepted adr_att adr_acc p
        = (if (999 / 1000 : ℚ) < q then .fin (999 / 1000) else .fin q)) ∧
    (newPOf r moves accepted adr_att adr_acc = .pinf →
      recomputeAddremove r moves accepted adr_att adr_acc p = .fin (999 / 1000)) ∧
    (newPOf r moves accepted adr_att adr_acc = .ninf →
      recomputeAddremove r moves accepted adr_att adr_acc p = .ninf) := by
  refine ⟨?_, ?_, ?_, ?_⟩
  · intro h
    unfold recomputeAddremove
    rw [if_neg (by simp [h])]
  · intro q hq
    unfold recomputeAddremove
    dsimp only
    rw [hq]
    by_cases hc : (999 / 1000 : ℚ) < q
    · rw [if_pos hc]
      simp [FVal.isNaN, FVal.gtQ, hc]
    · rw [if_neg hc]
      simp [FVal.isNaN, FVal.gtQ, hc]
  · intro h
    unfold recomputeAddremove
    dsimp only
    rw [h]
    simp [FVal.isNaN, FVal.gtQ]
  · intro h
    unfold recomputeAddremove
    dsimp only
    rw [h]
    simp [FVal.isNaN, FVal.gtQ]

/-- Claim C8 counterexample: with target rate 1/2, 2 moves both accepted,
1 add/remove attempt accepted, new_p is (1/2 - 1)/(1 - 1) = -infinity —
a non-finite, non-NaN value — and the recomputation STORES it: the
probability changes from 1/20 to -infinity instead of being left
unchanged. -/
theorem C8_addremove_counterexample :
    newPOf (1 / 2) 2 2 1 1 = FVal.ninf ∧
    recomputeAddremove (1 / 2) 2 2 1 1 (FVal.fin (1 / 20)) = FVal.ninf ∧
    FVal.ninf ≠ FVal.fin (1 / 20) := by
  have hnp : newPOf (1 / 2) 2 2 1 1 = FVal.ninf := by
    unfold newPOf
    norm_num [FVal.div, FVal.sub]
  refine ⟨hnp, ?_, by simp⟩
  unfold recomputeAddremove
  dsimp only
  rw [hnp]
  simp [FVal.isNaN, FVal.gtQ]

theorem C8_addremove_nan_rule_witness :
    FVal.isNaN (newPOf (1 / 2) 0 0 0 0) = true ∧
    recomputeAddremove (1 / 2) 0 0 0 0 (FVal.fin (1 / 20)) = FVal.fin (1 / 20) :=
  ⟨by norm_num [newPOf, FVal.div, FVal.sub, FVal.isNaN],
    (C8_addremove_nan_rule (1 / 2) 0 0 0 0 (FVal.fin (1 / 20))).1
      (by norm_num [newPOf, FVal.div, FVal.sub, FVal.isNaN])⟩
